import Mathlib

/-!
Verification of the tile-region negotiation engine's fan-out node
(`SplitStage`, from src/libcamera/pipeline/raspberrypi/pisp/backend/tiling/split_stage.cpp).

The `SplitStage` member functions `Reset`, `PushStartUp`, `PushEndDown`,
`PushEndUp`, `PushCropDown` and `SetDownstream` are embedded as pure
state-passing functions.  The C++ code mutates the node's own fields
(`input_interval_`, `count_`) and calls into its neighbours through
pointers; here the node's state is a structure, the downstream branches
are an ordered list of (reference, branch-state) pairs driven by an
abstract behaviour `BranchModel`, and the calls the node issues (to its
upstream neighbour and to each branch) are returned as explicit traces so
that theorems can speak about them.

The `Interval` value type and the tiling `Dir` (axis) enum live in
headers that are not part of the analysed sources; they are modelled
from the spec (sections 3, 4.1) as noted on each definition.
-/

namespace Tiling

/-- Modelled from the spec: the tiling axis ("Axis: one of the (typically
two) independent scan directions").  The `Dir` enum's definition is not in
the analysed sources; every operation merely threads it through unchanged. -/
inductive Dir where
  | x : Dir
  | y : Dir
deriving DecidableEq, Repr

/-- Modelled from the spec: `Interval` is a half-open pixel range
`[start, end)` given by `{start: integer, end: integer}` (spec section 3).
The `Interval` type's definition is not in the analysed sources.  `end` is
a Lean keyword, so the field is named `stop`. -/
structure Interval where
  start : Int
  stop : Int
deriving DecidableEq, Repr

/-- Modelled from the spec: an interval "constructed as a single point
`start == end == offset`" (spec section 3), the form `Interval(output_start)`
used on the first `PushStartUp` call of a phase. -/
def Interval.point (offset : Int) : Interval :=
  ⟨offset, offset⟩

/-- Modelled from the spec: `unionLeft(offset)` sets `start = min(start,
offset)`, widening the interval leftward only (spec sections 3, 4.1);
this is the `input_interval_ |= output_start` step of `PushStartUp`. -/
def Interval.unionLeft (i : Interval) (offset : Int) : Interval :=
  { i with start := min i.start offset }

/-- Modelled from the spec: `SetEnd` sets the interval's end (spec section
4.3 step A, "set the node's own interval end to `inputEnd`"). -/
def Interval.setEnd (i : Interval) (e : Int) : Interval :=
  { i with stop := e }

/-- Modelled from the spec: `End()` reads back the interval's end. -/
def Interval.End (i : Interval) : Int :=
  i.stop

/-- Modelled from the spec: the `extends` relation, "pure predicate,
`start <= other.start && end >= other.end`" (spec section 4.1), i.e. the
interval is a superset of (or equal to) `other`.  This is the comparison
`interval > input_interval_` asserted by `PushCropDown`. -/
def Interval.extendsb (i other : Interval) : Bool :=
  i.start ≤ other.start && other.stop ≤ i.stop

/-- Modelled from the spec: the observable behaviour of one downstream
branch (an arbitrary `Stage`, whose concrete subclasses are not in the
analysed sources).  A branch has private state `σ`; `endDown` is its
`PushEndDown` (returning its updated state and the end it can accept) and
`cropDown` is its `PushCropDown`. -/
structure BranchModel (σ : Type) where
  endDown : σ → Int → Dir → σ × Int
  cropDown : σ → Interval → Dir → σ

/-- The fan-out node's state: one upstream reference, the ordered list of
downstream branches (reference paired with that branch's current private
state; registration order defines the branch index), the node's own
`input_interval_` and the barrier counter `count_`. -/
structure SplitStage (β σ : Type) where
  upstream : β
  downstream : List (β × σ)
  input_interval : Interval
  count : Nat
deriving DecidableEq, Repr

/-- SplitStage::SetDownstream — appends a stage to the downstream list
(`downstream_.push_back(stage)`). -/
def SplitStage.SetDownstream (st : SplitStage β σ) (d : β × σ) : SplitStage β σ :=
  { st with downstream := st.downstream ++ [d] }

/-- SplitStage::Reset — `input_interval_ = Interval(0, 0); count_ = 0;`. -/
def SplitStage.Reset (st : SplitStage β σ) : SplitStage β σ :=
  { st with input_interval := ⟨0, 0⟩, count := 0 }

/-- SplitStage::PushStartUp.  On the first call of the phase
(`count_++ == 0`) the interval becomes the single point `output_start`,
otherwise it is widened leftward (`input_interval_ |= output_start`); when
the incremented counter reaches the number of downstream branches the
counter resets to zero and the node calls its upstream neighbour's
`PushStartUp` with `input_interval_.offset` — returned here as
`some start`; otherwise no upstream call happens (`none`). -/
def SplitStage.PushStartUp (st : SplitStage β σ) (output_start : Int) (dir : Dir) :
    SplitStage β σ × Option Int :=
  let iv := if st.count = 0 then Interval.point output_start
            else st.input_interval.unionLeft output_start
  let c := st.count + 1
  if c = st.downstream.length then
    ({ st with input_interval := iv, count := 0 }, some iv.start)
  else
    ({ st with input_interval := iv, count := c }, none)

/-- SplitStage::PushEndUp — "Genuinely nothing to do here" (logging only). -/
def SplitStage.PushEndUp (st : SplitStage β σ) (output_end : Int) (dir : Dir) :
    SplitStage β σ :=
  st

/-- Result of the first `PushEndDown` loop over the branches: the updated
branch list, the node's interval after clamping, and the traces of the
values passed to (`calls`) and returned by (`resps`) each branch, in
branch order. -/
structure ProbeResult (β σ : Type) where
  branches : List (β × σ)
  interval : Interval
  calls : List Int
  resps : List Int
deriving Repr

/-- First loop of SplitStage::PushEndDown: each branch is told the
original `input_end` (`d->PushEndDown(input_end, dir)`); whenever a
branch's answer is below the node's current end, the end is pulled down
to it (`if (branch_end < input_interval_.End()) input_interval_.SetEnd(branch_end)`). -/
def SplitStage.probeLoop (B : BranchModel σ) (input_end : Int) (dir : Dir) :
    List (β × σ) → Interval → ProbeResult β σ
  | [], iv => ⟨[], iv, [], []⟩
  | d :: ds, iv =>
    let pr := B.endDown d.2 input_end dir
    let iv' := if pr.2 < iv.End then iv.setEnd pr.2 else iv
    let rest := SplitStage.probeLoop B input_end dir ds iv'
    ⟨(d.1, pr.1) :: rest.branches, rest.interval, input_end :: rest.calls, pr.2 :: rest.resps⟩

/-- Second loop of SplitStage::PushEndDown: every branch is called again
with the reconciled end (`d->PushEndDown(input_interval_.End(), dir)`);
the return values are discarded by the code.  Returns the updated branch
list and the trace of values passed. -/
def SplitStage.bcastLoop (B : BranchModel σ) (final_end : Int) (dir : Dir) :
    List (β × σ) → List (β × σ) × List Int
  | [] => ([], [])
  | d :: ds =>
    let d' := (B.endDown d.2 final_end dir).1
    let rest := SplitStage.bcastLoop B final_end dir ds
    ((d.1, d') :: rest.1, final_end :: rest.2)

/-- Full outcome of one SplitStage::PushEndDown call: the node's updated
state, the returned end (`return input_interval_.End()`), and the traces
of both rounds of branch calls. -/
structure EndDownResult (β σ : Type) where
  state : SplitStage β σ
  ret : Int
  probeCalls : List Int
  probeResps : List Int
  bcastCalls : List Int
deriving Repr

/-- SplitStage::PushEndDown — set the interval's end to `input_end`,
probe every branch with `input_end` clamping the end to the least answer,
re-broadcast the reconciled end to every branch, call `PushEndUp` with it,
and return it. -/
def SplitStage.PushEndDown (B : BranchModel σ) (st : SplitStage β σ) (input_end : Int)
    (dir : Dir) : EndDownResult β σ :=
  let iv0 := st.input_interval.setEnd input_end
  let p := SplitStage.probeLoop B input_end dir st.downstream iv0
  let b := SplitStage.bcastLoop B p.interval.End dir p.branches
  let st' := SplitStage.PushEndUp
    { st with input_interval := p.interval, downstream := b.1 } p.interval.End dir
  ⟨st', p.interval.End, p.calls, p.resps, b.2⟩

/-- Loop of SplitStage::PushCropDown: every branch receives
`d->PushCropDown(interval, dir)` with the interval unmodified.  Returns
the updated branch list and the trace of intervals passed. -/
def SplitStage.cropLoop (B : BranchModel σ) (interval : Interval) (dir : Dir) :
    List (β × σ) → List (β × σ) × List Interval
  | [] => ([], [])
  | d :: ds =>
    let d' := B.cropDown d.2 interval dir
    let rest := SplitStage.cropLoop B interval dir ds
    ((d.1, d') :: rest.1, interval :: rest.2)

/-- SplitStage::PushCropDown — `assert(interval > input_interval_)` is
modelled as `none` on violation; otherwise the interval is recorded and
passed unmodified to every branch in order. -/
def SplitStage.PushCropDown (B : BranchModel σ) (st : SplitStage β σ) (interval : Interval)
    (dir : Dir) : Option (SplitStage β σ × List Interval) :=
  if interval.extendsb st.input_interval then
    let r := SplitStage.cropLoop B interval dir st.downstream
    some ({ st with input_interval := interval, downstream := r.1 }, r.2)
  else
    none

/-- Drives one Phase-1 sequence: feeds the listed start offsets to
`PushStartUp` one after the other, threading the node's state and
collecting the upstream calls the node makes (in order). -/
def SplitStage.runStartUps (dir : Dir) : SplitStage β σ → List Int → SplitStage β σ × List Int
  | st, [] => (st, [])
  | st, s :: ss =>
    let p := SplitStage.PushStartUp st s dir
    let r := SplitStage.runStartUps dir p.1 ss
    (r.1, p.2.toList ++ r.2)

/-- Drives the three negotiation phases in the driver's order: the
Phase-1 `PushStartUp` calls, one Phase-2 `PushEndDown`, one Phase-3
`PushCropDown`; `none` when the crop assertion fails. -/
def SplitStage.runPhases (B : BranchModel σ) (st : SplitStage β σ) (starts : List Int)
    (input_end : Int) (interval : Interval) (dir : Dir) : Option (SplitStage β σ) :=
  let p1 := SplitStage.runStartUps dir st starts
  let p2 := SplitStage.PushEndDown B p1.1 input_end dir
  (SplitStage.PushCropDown B p2.state interval dir).map Prod.fst

/-! ### Helper lemmas about the loops -/

lemma foldl_min_le_init : ∀ (l : List Int) (a : Int), List.foldl min a l ≤ a
  | [], a => le_refl a
  | x :: l, a => le_trans (foldl_min_le_init l (min a x)) (min_le_left a x)

lemma clamp_stop (iv : Interval) (r : Int) :
    (if r < iv.End then iv.setEnd r else iv).stop = min iv.stop r := by
  by_cases h : r < iv.End
  · rw [if_pos h]
    show r = min iv.stop r
    have h' : r < iv.stop := h
    omega
  · rw [if_neg h]
    show iv.stop = min iv.stop r
    have h' : ¬ r < iv.stop := h
    omega

lemma clamp_start (iv : Interval) (r : Int) :
    (if r < iv.End then iv.setEnd r else iv).start = iv.start := by
  by_cases h : r < iv.End
  · rw [if_pos h]
    rfl
  · rw [if_neg h]

lemma probeLoop_interval_stop (B : BranchModel σ) (e : Int) (dir : Dir) :
    ∀ (ds : List (β × σ)) (iv : Interval),
      (SplitStage.probeLoop B e dir ds iv).interval.stop
        = List.foldl min iv.stop (SplitStage.probeLoop B e dir ds iv).resps
  | [], iv => rfl
  | d :: ds, iv => by
    simp only [SplitStage.probeLoop, List.foldl]
    rw [probeLoop_interval_stop B e dir ds, clamp_stop]

lemma probeLoop_interval_start (B : BranchModel σ) (e : Int) (dir : Dir) :
    ∀ (ds : List (β × σ)) (iv : Interval),
      (SplitStage.probeLoop B e dir ds iv).interval.start = iv.start
  | [], iv => rfl
  | d :: ds, iv => by
    simp only [SplitStage.probeLoop]
    rw [probeLoop_interval_start B e dir ds, clamp_start]

lemma probeLoop_branches (B : BranchModel σ) (e : Int) (dir : Dir) :
    ∀ (ds : List (β × σ)) (iv : Interval),
      (SplitStage.probeLoop B e dir ds iv).branches
        = ds.map (fun d => (d.1, (B.endDown d.2 e dir).1))
  | [], iv => rfl
  | d :: ds, iv => by
    simp only [SplitStage.probeLoop, List.map]
    rw [probeLoop_branches B e dir ds]

lemma probeLoop_calls (B : BranchModel σ) (e : Int) (dir : Dir) :
    ∀ (ds : List (β × σ)) (iv : Interval),
      (SplitStage.probeLoop B e dir ds iv).calls = List.replicate ds.length e
  | [], iv => rfl
  | d :: ds, iv => by
    simp only [SplitStage.probeLoop, List.length_cons, List.replicate_succ]
    rw [probeLoop_calls B e dir ds]

lemma probeLoop_resps (B : BranchModel σ) (e : Int) (dir : Dir) :
    ∀ (ds : List (β × σ)) (iv : Interval),
      (SplitStage.probeLoop B e dir ds iv).resps
        = ds.map (fun d => (B.endDown d.2 e dir).2)
  | [], iv => rfl
  | d :: ds, iv => by
    simp only [SplitStage.probeLoop, List.map]
    rw [probeLoop_resps B e dir ds]

lemma bcastLoop_fst (B : BranchModel σ) (v : Int) (dir : Dir) :
    ∀ ds : List (β × σ),
      (SplitStage.bcastLoop B v dir ds).1
        = ds.map (fun d => (d.1, (B.endDown d.2 v dir).1))
  | [] => rfl
  | d :: ds => by
    simp only [SplitStage.bcastLoop, List.map]
    rw [bcastLoop_fst B v dir ds]

lemma bcastLoop_snd (B : BranchModel σ) (v : Int) (dir : Dir) :
    ∀ ds : List (β × σ),
      (SplitStage.bcastLoop B v dir ds).2 = List.replicate ds.length v
  | [] => rfl
  | d :: ds => by
    simp only [SplitStage.bcastLoop, List.length_cons, List.replicate_succ]
    rw [bcastLoop_snd B v dir ds]

lemma cropLoop_fst (B : BranchModel σ) (J : Interval) (dir : Dir) :
    ∀ ds : List (β × σ),
      (SplitStage.cropLoop B J dir ds).1 = ds.map (fun d => (d.1, B.cropDown d.2 J dir))
  | [] => rfl
  | d :: ds => by
    simp only [SplitStage.cropLoop, List.map]
    rw [cropLoop_fst B J dir ds]

lemma cropLoop_snd (B : BranchModel σ) (J : Interval) (dir : Dir) :
    ∀ ds : List (β × σ),
      (SplitStage.cropLoop B J dir ds).2 = List.replicate ds.length J
  | [] => rfl
  | d :: ds => by
    simp only [SplitStage.cropLoop, List.length_cons, List.replicate_succ]
    rw [cropLoop_snd B J dir ds]

lemma runStartUps_forward (dir : Dir) :
    ∀ (ss : List Int) (st : SplitStage β σ), ss ≠ [] → st.count ≠ 0 →
      st.count + ss.length = st.downstream.length →
      (SplitStage.runStartUps dir st ss).2
          = [List.foldl min st.input_interval.start ss] ∧
      (SplitStage.runStartUps dir st ss).1.count = 0
  | [], _ => fun h => absurd rfl h
  | [s], st => by
    intro _ h0 hlen
    have hc : st.count + 1 = st.downstream.length := by simpa using hlen
    simp only [SplitStage.runStartUps, SplitStage.PushStartUp, if_neg h0, if_pos hc,
      Option.toList_some, List.nil_append, List.foldl, Interval.unionLeft]
    exact ⟨by simp, trivial⟩
  | s :: s' :: ss, st => by
    intro _ h0 hlen
    have hne : ¬ st.count + 1 = st.downstream.length := by
      simp only [List.length_cons] at hlen
      omega
    simp only [SplitStage.runStartUps, SplitStage.PushStartUp, if_neg h0, if_neg hne,
      Option.toList_none, List.nil_append]
    have ih := runStartUps_forward dir (s' :: ss)
      { st with input_interval := st.input_interval.unionLeft s, count := st.count + 1 }
      (by simp) (by simp) (by simp only [List.length_cons] at hlen ⊢; omega)
    simp only [Interval.unionLeft] at ih
    exact ⟨ih.1, ih.2⟩

lemma runStartUps_no_forward (dir : Dir) :
    ∀ (ss : List Int) (st : SplitStage β σ),
      st.count + ss.length < st.downstream.length →
      (SplitStage.runStartUps dir st ss).2 = [] ∧
      (SplitStage.runStartUps dir st ss).1.count = st.count + ss.length ∧
      (SplitStage.runStartUps dir st ss).1.downstream = st.downstream
  | [], st => fun _ => ⟨rfl, rfl, rfl⟩
  | s :: ss, st => by
    intro h
    simp only [List.length_cons] at h
    have hne : ¬ st.count + 1 = st.downstream.length := by omega
    simp only [SplitStage.runStartUps, SplitStage.PushStartUp, hne, if_false,
      Option.toList_none, List.nil_append, if_neg hne]
    have ih := runStartUps_no_forward dir ss
      { st with
        input_interval := if st.count = 0 then Interval.point s
                          else st.input_interval.unionLeft s,
        count := st.count + 1 }
      (by simpa using (by omega : st.count + 1 + ss.length < st.downstream.length))
    refine ⟨ih.1, ?_, ih.2.2⟩
    rw [ih.2.1]
    simp only [List.length_cons]
    omega

/-- SplitStage::PushEndDown returns the fold of `min` over the branch
probe answers, started at the offered `input_end`. -/
lemma PushEndDown_ret_eq (B : BranchModel σ) (st : SplitStage β σ) (e : Int) (dir : Dir) :
    (SplitStage.PushEndDown B st e dir).ret
      = List.foldl min e (SplitStage.PushEndDown B st e dir).probeResps := by
  simp only [SplitStage.PushEndDown, Interval.End]
  exact probeLoop_interval_stop B e dir st.downstream (st.input_interval.setEnd e)

lemma PushStartUp_topology (st : SplitStage β σ) (s : Int) (dir : Dir) :
    (SplitStage.PushStartUp st s dir).1.downstream = st.downstream ∧
    (SplitStage.PushStartUp st s dir).1.upstream = st.upstream := by
  simp only [SplitStage.PushStartUp]
  split <;> exact ⟨rfl, rfl⟩

lemma runStartUps_topology (dir : Dir) :
    ∀ (ss : List Int) (st : SplitStage β σ),
      (SplitStage.runStartUps dir st ss).1.downstream = st.downstream ∧
      (SplitStage.runStartUps dir st ss).1.upstream = st.upstream
  | [], st => ⟨rfl, rfl⟩
  | s :: ss, st => by
    simp only [SplitStage.runStartUps]
    have h1 := PushStartUp_topology st s dir
    have ih := runStartUps_topology dir ss (SplitStage.PushStartUp st s dir).1
    exact ⟨ih.1.trans h1.1, ih.2.trans h1.2⟩

lemma PushEndDown_state_fields (B : BranchModel σ) (st : SplitStage β σ) (e : Int)
    (dir : Dir) :
    (SplitStage.PushEndDown B st e dir).state.upstream = st.upstream ∧
    (SplitStage.PushEndDown B st e dir).state.count = st.count ∧
    (SplitStage.PushEndDown B st e dir).state.downstream
      = st.downstream.map (fun d => (d.1,
          (B.endDown (B.endDown d.2 e dir).1
            (SplitStage.PushEndDown B st e dir).ret dir).1)) := by
  refine ⟨rfl, rfl, ?_⟩
  simp only [SplitStage.PushEndDown, SplitStage.PushEndUp]
  rw [bcastLoop_fst, probeLoop_branches]
  simp [List.map_map, Function.comp]

lemma PushCropDown_some_fields (B : BranchModel σ) (st : SplitStage β σ)
    (J : Interval) (dir : Dir) (st' : SplitStage β σ) (tr : List Interval)
    (h : SplitStage.PushCropDown B st J dir = some (st', tr)) :
    st'.upstream = st.upstream ∧ st'.count = st.count ∧ st'.input_interval = J ∧
    st'.downstream = st.downstream.map (fun d => (d.1, B.cropDown d.2 J dir)) := by
  simp only [SplitStage.PushCropDown] at h
  split at h
  · have hp := Option.some.inj h
    injection hp with h1 h2
    subst h1
    rw [cropLoop_fst]
    exact ⟨rfl, rfl, rfl, rfl⟩
  · exact absurd h (by simp)

/-! ### Claim theorems -/

/-- Claim C1: for a SplitStage with n >= 1 downstream branches starting
from the reset state, after the n-th PushStartUp call of the phase, with
the n calls carrying starts s1..sn in any order (any list of n starts),
the node has called its upstream neighbour's PushStartUp exactly once —
the whole phase's upstream-call trace is the single call carrying
min(s1..sn) — and its call counter is back at zero. -/
theorem pushStartUp_forwards_min_once {β σ : Type} (st : SplitStage β σ) (dir : Dir)
    (s : Int) (rest : List Int)
    (hlen : rest.length + 1 = st.downstream.length) :
    (SplitStage.runStartUps dir (SplitStage.Reset st) (s :: rest)).2
        = [List.foldl min s rest] ∧
    (SplitStage.runStartUps dir (SplitStage.Reset st) (s :: rest)).1.count = 0 := by
  rcases rest with _ | ⟨s', rest⟩
  · have hc : 0 + 1 = st.downstream.length := by simpa using hlen
    simp only [SplitStage.runStartUps, SplitStage.PushStartUp, SplitStage.Reset,
      if_pos rfl]
    rw [if_pos hc]
    simp [Interval.point]
  · have hne : ¬ (0 + 1 = st.downstream.length) := by
      simp only [List.length_cons] at hlen
      omega
    simp only [SplitStage.runStartUps, SplitStage.PushStartUp, SplitStage.Reset,
      if_pos rfl]
    rw [if_neg (by simpa using hne)]
    simp only [Option.toList_none, List.nil_append]
    have ih := runStartUps_forward dir (s' :: rest)
      { st with input_interval := Interval.point s, count := 0 + 1 }
      (by simp) (by simp)
      (by simp only [List.length_cons] at hlen ⊢; omega)
    simpa [Interval.point] using ih

/-- Witness for claim C1 at spec Scenario A: two branches, starts 10 then
4, from reset; the upstream trace is one call carrying min(10, 4) = 4 and
the counter is back at zero. -/
theorem pushStartUp_forwards_min_once_inst :
    (SplitStage.runStartUps Dir.x (SplitStage.Reset
        (⟨0, [(1, ()), (2, ())], ⟨5, 7⟩, 3⟩ : SplitStage Nat Unit)) (10 :: [4])).2
        = [List.foldl min 10 [4]] ∧
    (SplitStage.runStartUps Dir.x (SplitStage.Reset
        (⟨0, [(1, ()), (2, ())], ⟨5, 7⟩, 3⟩ : SplitStage Nat Unit)) (10 :: [4])).1.count = 0 :=
  pushStartUp_forwards_min_once ⟨0, [(1, ()), (2, ())], ⟨5, 7⟩, 3⟩ Dir.x 10 [4] rfl

/-- Claim C5: a SplitStage that has received fewer PushStartUp calls than
it has downstream branches (counting from its last reset or last forward,
i.e. from counter zero) makes no upstream call at all. -/
theorem pushStartUp_no_forward_below_barrier {β σ : Type} (st : SplitStage β σ)
    (dir : Dir) (ss : List Int) (h0 : st.count = 0)
    (hlt : ss.length < st.downstream.length) :
    (SplitStage.runStartUps dir st ss).2 = [] :=
  (runStartUps_no_forward dir ss st (by omega)).1

/-- Witness for claim C5 at spec Scenario D: three branches but only two
PushStartUp calls — the upstream-call trace is empty. -/
theorem pushStartUp_no_forward_below_barrier_inst :
    (SplitStage.runStartUps Dir.x
        (⟨0, [(1, ()), (2, ()), (3, ())], ⟨0, 0⟩, 0⟩ : SplitStage Nat Unit)
        [10, 4]).2 = [] :=
  pushStartUp_no_forward_below_barrier ⟨0, [(1, ()), (2, ()), (3, ())], ⟨0, 0⟩, 0⟩
    Dir.x [10, 4] rfl (by decide)

/-- Claim C2 (amended): for any SplitStage probed once with input end e,
the final end that is broadcast to the branches and returned to the
caller equals min(e, branch_1.accept(e), ..., branch_n.accept(e)) — the
fold of min over the branches' first-probe answers started at e — rather
than the bare minimum of the branch answers, which the node never exceeds
e to reach. -/
theorem pushEndDown_end_is_clamped_min {β σ : Type} (B : BranchModel σ)
    (st : SplitStage β σ) (e : Int) (dir : Dir) :
    (SplitStage.PushEndDown B st e dir).ret
        = List.foldl min e (SplitStage.PushEndDown B st e dir).probeResps ∧
    (SplitStage.PushEndDown B st e dir).bcastCalls
        = List.replicate st.downstream.length (SplitStage.PushEndDown B st e dir).ret := by
  refine ⟨PushEndDown_ret_eq B st e dir, ?_⟩
  simp only [SplitStage.PushEndDown]
  rw [bcastLoop_snd, probeLoop_branches]
  simp

/-- Counterexample to claim C2 as stated: one branch whose PushEndDown
answers the probe with e + 1 (more than offered).  Probed with e = 0 the
branch answers 1, so min over the branch answers is 1, but the node
returns 0: the final end is not min(branch answers). -/
theorem pushEndDown_min_claim_cex :
    (SplitStage.PushEndDown (⟨fun s e _ => (s, e + 1), fun s _ _ => s⟩ : BranchModel Unit)
        (⟨(), [((), ())], ⟨0, 0⟩, 0⟩ : SplitStage Unit Unit) 0 Dir.x).probeResps = [1] ∧
    (SplitStage.PushEndDown (⟨fun s e _ => (s, e + 1), fun s _ _ => s⟩ : BranchModel Unit)
        (⟨(), [((), ())], ⟨0, 0⟩, 0⟩ : SplitStage Unit Unit) 0 Dir.x).ret ≠ 1 := by
  decide

/-- Claim C4: during one PushEndDown(e) every downstream branch receives
exactly two PushEndDown calls, in branch order: first a probe carrying e,
then a second call carrying the final reconciled end; accordingly each
branch's final state is its probe update followed by the re-broadcast
update with the node's final end (not its own first-probe answer). -/
theorem pushEndDown_two_calls_per_branch {β σ : Type} (B : BranchModel σ)
    (st : SplitStage β σ) (e : Int) (dir : Dir) :
    (SplitStage.PushEndDown B st e dir).probeCalls
        = List.replicate st.downstream.length e ∧
    (SplitStage.PushEndDown B st e dir).bcastCalls
        = List.replicate st.downstream.length (SplitStage.PushEndDown B st e dir).ret ∧
    (SplitStage.PushEndDown B st e dir).state.downstream
        = st.downstream.map (fun d =>
            (d.1, (B.endDown (B.endDown d.2 e dir).1
                     (SplitStage.PushEndDown B st e dir).ret dir).1)) := by
  refine ⟨?_, ?_, ?_⟩
  · simp only [SplitStage.PushEndDown]
    rw [probeLoop_calls]
  · simp only [SplitStage.PushEndDown]
    rw [bcastLoop_snd, probeLoop_branches]
    simp
  · simp only [SplitStage.PushEndDown, SplitStage.PushEndUp]
    rw [bcastLoop_fst, probeLoop_branches]
    simp [List.map_map, Function.comp]

/-- Claim C10: the end PushEndDown returns never exceeds the offered
input end e, whatever the branches answer — the node only ever clamps
downward. -/
theorem pushEndDown_never_exceeds_offer {β σ : Type} (B : BranchModel σ)
    (st : SplitStage β σ) (e : Int) (dir : Dir) :
    (SplitStage.PushEndDown B st e dir).ret ≤ e := by
  rw [PushEndDown_ret_eq]
  exact foldl_min_le_init _ e

/-- Claim C3: PushCropDown(J) succeeds exactly when J extends the node's
recorded interval I, i.e. J.start <= I.start and I.end <= J.end (J is a
superset of or equal to I), and aborts (modelled as none) when J is
strictly narrower; in particular after a successful call with [4,80) a
call with [10,70) fails the precondition. -/
theorem pushCropDown_extends_iff {β σ : Type} (B : BranchModel σ) :
    (∀ (st : SplitStage β σ) (J : Interval) (dir : Dir),
        (SplitStage.PushCropDown B st J dir).isSome
          ↔ (J.start ≤ st.input_interval.start ∧ st.input_interval.stop ≤ J.stop)) ∧
    (∀ (st st' : SplitStage β σ) (tr : List Interval) (dir dir' : Dir),
        SplitStage.PushCropDown B st ⟨4, 80⟩ dir = some (st', tr) →
        SplitStage.PushCropDown B st' ⟨10, 70⟩ dir' = none) := by
  constructor
  · intro st J dir
    simp only [SplitStage.PushCropDown]
    split
    · rename_i hcond
      simp only [Option.isSome_some, true_iff]
      simpa [Interval.extendsb] using hcond
    · rename_i hcond
      simp only [Option.isSome_none, Bool.false_eq_true, false_iff]
      intro hp
      exact hcond (by simp [Interval.extendsb, hp.1, hp.2])
  · intro st st' tr dir dir' h
    have hst := (PushCropDown_some_fields B st ⟨4, 80⟩ dir st' tr h).2.2.1
    simp only [SplitStage.PushCropDown, hst]
    rw [if_neg (by decide)]

/-- Witness for claim C3: an instance of the success-iff-extends
equivalence, and spec Scenario C — the crop [4,80) succeeds on a node
whose interval is [10,70), after which the narrower crop [10,70) fails. -/
theorem pushCropDown_extends_iff_inst :
    ((SplitStage.PushCropDown (⟨fun s e _ => (s, e), fun s _ _ => s⟩ : BranchModel Unit)
        (⟨(), [((), ())], ⟨10, 70⟩, 0⟩ : SplitStage Unit Unit) ⟨4, 80⟩ Dir.x).isSome
      ↔ ((⟨4, 80⟩ : Interval).start ≤ (⟨(), [((), ())], ⟨10, 70⟩, 0⟩ :
            SplitStage Unit Unit).input_interval.start ∧
         (⟨(), [((), ())], ⟨10, 70⟩, 0⟩ :
            SplitStage Unit Unit).input_interval.stop ≤ (⟨4, 80⟩ : Interval).stop)) ∧
    SplitStage.PushCropDown (⟨fun s e _ => (s, e), fun s _ _ => s⟩ : BranchModel Unit)
        (⟨(), [((), ())], ⟨4, 80⟩, 0⟩ : SplitStage Unit Unit) ⟨10, 70⟩ Dir.x = none :=
  ⟨(pushCropDown_extends_iff (⟨fun s e _ => (s, e), fun s _ _ => s⟩ : BranchModel Unit)).1
      ⟨(), [((), ())], ⟨10, 70⟩, 0⟩ ⟨4, 80⟩ Dir.x,
   (pushCropDown_extends_iff (⟨fun s e _ => (s, e), fun s _ _ => s⟩ : BranchModel Unit)).2
      ⟨(), [((), ())], ⟨10, 70⟩, 0⟩ ⟨(), [((), ())], ⟨4, 80⟩, 0⟩ [⟨4, 80⟩] Dir.x Dir.x
      (by decide)⟩

/-- Claim C6: for any interval J satisfying the extends precondition,
PushCropDown(J) records J as the node's interval and calls PushCropDown
on every downstream branch, in branch order, with exactly the same
interval J, unmodified. -/
theorem pushCropDown_broadcasts_same {β σ : Type} (B : BranchModel σ)
    (st : SplitStage β σ) (J : Interval) (dir : Dir)
    (h : J.start ≤ st.input_interval.start ∧ st.input_interval.stop ≤ J.stop) :
    SplitStage.PushCropDown B st J dir
      = some ({ st with
                  input_interval := J
                  downstream := st.downstream.map (fun d => (d.1, B.cropDown d.2 J dir)) },
              List.replicate st.downstream.length J) := by
  have hb : Interval.extendsb J st.input_interval = true := by
    simp [Interval.extendsb, h.1, h.2]
  simp only [SplitStage.PushCropDown, if_pos hb]
  rw [cropLoop_fst, cropLoop_snd]

/-- Witness for claim C6: the crop [4,80) on a node with interval [10,70)
and one branch records [4,80) and passes exactly [4,80) to the branch. -/
theorem pushCropDown_broadcasts_same_inst :
    SplitStage.PushCropDown (⟨fun s e _ => (s, e), fun s _ _ => s⟩ : BranchModel Unit)
        (⟨(), [((), ())], ⟨10, 70⟩, 0⟩ : SplitStage Unit Unit) ⟨4, 80⟩ Dir.x
      = some ({ (⟨(), [((), ())], ⟨10, 70⟩, 0⟩ : SplitStage Unit Unit) with
                  input_interval := ⟨4, 80⟩
                  downstream := [((), ())].map (fun d => (d.1,
                    (⟨fun s e _ => (s, e), fun s _ _ => s⟩ : BranchModel Unit).cropDown
                      d.2 ⟨4, 80⟩ Dir.x)) },
              List.replicate [((), ())].length ⟨4, 80⟩) :=
  pushCropDown_broadcasts_same _ _ _ _ (by decide)

/-- Claim C8: in any state, Reset sets the node's interval to (0,0) and
its barrier counter to zero. -/
theorem reset_clears_state {β σ : Type} (st : SplitStage β σ) :
    (SplitStage.Reset st).input_interval = ⟨0, 0⟩ ∧ (SplitStage.Reset st).count = 0 :=
  ⟨rfl, rfl⟩

lemma runPhases_fixed_topology (B : BranchModel σ)
    (hE : ∀ (s : σ) (e : Int) (dir : Dir), (B.endDown s e dir).1 = s)
    (hC : ∀ (s : σ) (J : Interval) (dir : Dir), B.cropDown s J dir = s)
    (st : SplitStage β σ) (ss : List Int) (e : Int) (J : Interval) (dir : Dir)
    (stf : SplitStage β σ)
    (h : SplitStage.runPhases B st ss e J dir = some stf) :
    stf.upstream = st.upstream ∧ stf.downstream = st.downstream := by
  simp only [SplitStage.runPhases] at h
  rcases hopt : SplitStage.PushCropDown B (SplitStage.PushEndDown B
      (SplitStage.runStartUps dir st ss).1 e dir).state J dir with _ | ⟨st', tr⟩
  · rw [hopt] at h
    simp at h
  · rw [hopt] at h
    simp only [Option.map_some'] at h
    have hh : st' = stf := Option.some.inj h
    subst hh
    have hcrop := PushCropDown_some_fields B _ J dir st' tr hopt
    have hend := PushEndDown_state_fields B (SplitStage.runStartUps dir st ss).1 e dir
    have hrun := runStartUps_topology dir ss st
    constructor
    · rw [hcrop.1, hend.1, hrun.2]
    · rw [hcrop.2.2.2, hend.2.2, hrun.1]
      simp [hE, hC]

/-- Claim C7: for a SplitStage whose branch behaviours are fixed (branch
state is unchanged by calls, so each branch's answers depend only on the
value it is passed), resetting the node's state and re-running the same
three phases with the same inputs reproduces the same outcome: a run from
the reset of the first run's final state succeeds with exactly the same
final state, hence the same final recorded interval. -/
theorem runPhases_reset_deterministic {β σ : Type} (B : BranchModel σ)
    (hE : ∀ (s : σ) (e : Int) (dir : Dir), (B.endDown s e dir).1 = s)
    (hC : ∀ (s : σ) (J : Interval) (dir : Dir), B.cropDown s J dir = s)
    (st stf : SplitStage β σ) (ss : List Int) (e : Int) (J : Interval) (dir : Dir)
    (h : SplitStage.runPhases B (SplitStage.Reset st) ss e J dir = some stf) :
    SplitStage.runPhases B (SplitStage.Reset stf) ss e J dir = some stf := by
  have htop := runPhases_fixed_topology B hE hC (SplitStage.Reset st) ss e J dir stf h
  have h1 : stf.upstream = st.upstream := htop.1
  have h2 : stf.downstream = st.downstream := htop.2
  have hreset : SplitStage.Reset stf = SplitStage.Reset st := by
    show SplitStage.mk stf.upstream stf.downstream ⟨0, 0⟩ 0
        = SplitStage.mk st.upstream st.downstream ⟨0, 0⟩ 0
    rw [h1, h2]
  rw [hreset]
  exact h

/-- Witness for claim C7: one stateless branch, starts [3], end 10, crop
[3,10); the re-run from the reset of the first run's final state yields
that same final state again. -/
theorem runPhases_reset_deterministic_inst :
    SplitStage.runPhases (⟨fun _ e _ => ((), e), fun _ _ _ => ()⟩ : BranchModel Unit)
        (SplitStage.Reset (⟨0, [(1, ())], ⟨3, 10⟩, 0⟩ : SplitStage Nat Unit))
        [3] 10 ⟨3, 10⟩ Dir.x
      = some (⟨0, [(1, ())], ⟨3, 10⟩, 0⟩ : SplitStage Nat Unit) :=
  runPhases_reset_deterministic (⟨fun _ e _ => ((), e), fun _ _ _ => ()⟩ : BranchModel Unit)
    (fun _ _ _ => rfl) (fun _ _ _ => rfl)
    ⟨0, [(1, ())], ⟨9, 9⟩, 2⟩ ⟨0, [(1, ())], ⟨3, 10⟩, 0⟩ [3] 10 ⟨3, 10⟩ Dir.x
    (by decide)

/-- Claim C9: none of Reset, PushStartUp, PushEndDown, PushEndUp or
PushCropDown modifies the node's graph topology — its upstream reference
or its ordered list of downstream branch references (PushEndDown and
PushCropDown update only the branches' private states, keeping the
reference list); only SetDownstream appends a branch, so branch index
always equals registration order. -/
theorem ops_preserve_topology {β σ : Type} :
    (∀ st : SplitStage β σ,
        (SplitStage.Reset st).upstream = st.upstream ∧
        (SplitStage.Reset st).downstream = st.downstream) ∧
    (∀ (st : SplitStage β σ) (s : Int) (dir : Dir),
        (SplitStage.PushStartUp st s dir).1.upstream = st.upstream ∧
        (SplitStage.PushStartUp st s dir).1.downstream = st.downstream) ∧
    (∀ (B : BranchModel σ) (st : SplitStage β σ) (e : Int) (dir : Dir),
        (SplitStage.PushEndDown B st e dir).state.upstream = st.upstream ∧
        (SplitStage.PushEndDown B st e dir).state.downstream.map Prod.fst
          = st.downstream.map Prod.fst) ∧
    (∀ (st : SplitStage β σ) (e : Int) (dir : Dir),
        SplitStage.PushEndUp st e dir = st) ∧
    (∀ (B : BranchModel σ) (st : SplitStage β σ) (J : Interval) (dir : Dir)
        (st' : SplitStage β σ) (tr : List Interval),
        SplitStage.PushCropDown B st J dir = some (st', tr) →
        st'.upstream = st.upstream ∧
        st'.downstream.map Prod.fst = st.downstream.map Prod.fst) ∧
    (∀ (st : SplitStage β σ) (d : β × σ),
        (SplitStage.SetDownstream st d).upstream = st.upstream ∧
        (SplitStage.SetDownstream st d).downstream = st.downstream ++ [d]) := by
  refine ⟨fun st => ⟨rfl, rfl⟩, ?_, ?_, fun st e dir => rfl, ?_, fun st d => ⟨rfl, rfl⟩⟩
  · intro st s dir
    exact ⟨(PushStartUp_topology st s dir).2, (PushStartUp_topology st s dir).1⟩
  · intro B st e dir
    refine ⟨(PushEndDown_state_fields B st e dir).1, ?_⟩
    rw [(PushEndDown_state_fields B st e dir).2.2]
    simp [List.map_map, Function.comp]
  · intro B st J dir st' tr h
    refine ⟨(PushCropDown_some_fields B st J dir st' tr h).1, ?_⟩
    rw [(PushCropDown_some_fields B st J dir st' tr h).2.2.2]
    simp [List.map_map, Function.comp]

/-- Witness for claim C9: the PushCropDown conjunct applied at a concrete
successful crop — the branch reference list is unchanged. -/
theorem ops_preserve_topology_inst :
    (⟨(), [((), ())], ⟨4, 80⟩, 0⟩ : SplitStage Unit Unit).upstream
        = (⟨(), [((), ())], ⟨10, 70⟩, 0⟩ : SplitStage Unit Unit).upstream ∧
    (⟨(), [((), ())], ⟨4, 80⟩, 0⟩ : SplitStage Unit Unit).downstream.map Prod.fst
        = (⟨(), [((), ())], ⟨10, 70⟩, 0⟩ :
            SplitStage Unit Unit).downstream.map Prod.fst :=
  ops_preserve_topology.2.2.2.2.1
    (⟨fun s e _ => (s, e), fun s _ _ => s⟩ : BranchModel Unit)
    ⟨(), [((), ())], ⟨10, 70⟩, 0⟩ ⟨4, 80⟩ Dir.x
    ⟨(), [((), ())], ⟨4, 80⟩, 0⟩ [⟨4, 80⟩] (by decide)

end Tiling
